import Mathlib

/-!
Verification development for the zdplasmapy 0D plasma global model.

The definitions below are a shallow embedding of the Python source:
  * `src/src/chemistry_parser.py` — the sandboxed expression compiler
    (`_build_lambda`) and the chemistry loader;
  * `src/src/global_model.py` — the `GlobalModel` class: formula parsing
    (`_parse_formula`), stoichiometry building (`_create_stoich_matrices`),
    EEDF caching (`_get_eedf_rate_coefficient` and the trigger loop inside
    `_ode_system`), the ODE right-hand side (`_ode_system`) and initial
    conditions (`get_initial_conditions`).

Python floats are modelled as rationals (`ℚ`); a float operation that raises
(`ZeroDivisionError`) or produces NaN is modelled with `Option`/`Except`.
Python dicts with string keys are modelled as association lists in insertion
order; dict membership and lookup use key equality, and insertion of a fresh
key appends.  Python strings are processed as `List Char` so that every
string operation is a structurally recursive Lean function.
-/

namespace ZdPlasma

/-! ## Python string primitives

`pySplitArrow` models `str.split` with separator `"->"`, `pySplitPlusDelim`
models `str.split` with separator `" + "`: the string is scanned left to
right and cut at each non-overlapping occurrence of the separator.
`pyStrip` models `str.strip()` restricted to ASCII whitespace (the only
whitespace occurring in chemistry formulas). -/

/-- Prepend a character to the first piece of a split result. -/
def consHead (c : Char) : List (List Char) → List (List Char)
  | [] => [[c]]
  | l :: ls => (c :: l) :: ls

/-- `str.split("->")`: cut at each occurrence of the two-character separator. -/
def pySplitArrow : List Char → List (List Char)
  | [] => [[]]
  | [c] => [[c]]
  | c1 :: c2 :: rest =>
    if c1 = '-' ∧ c2 = '>' then [] :: pySplitArrow rest
    else consHead c1 (pySplitArrow (c2 :: rest))

/-- `str.split(" + ")`: cut at each occurrence of the three-character
separator (space, plus, space), deliberately chosen by the source so that
charge markers inside species names are not split points. -/
def pySplitPlusDelim : List Char → List (List Char)
  | c1 :: c2 :: c3 :: rest =>
    if c1 = ' ' ∧ c2 = '+' ∧ c3 = ' ' then [] :: pySplitPlusDelim rest
    else consHead c1 (pySplitPlusDelim (c2 :: c3 :: rest))
  | s => [s]

/-- ASCII whitespace as stripped by `str.strip()`. -/
def isPySpace (c : Char) : Bool :=
  c = ' ' ∨ c = '\t' ∨ c = '\n' ∨ c = '\x0d' ∨ c = '\x0b' ∨ c = '\x0c'

/-- `str.strip()`: drop leading and trailing whitespace. -/
def pyStrip (s : List Char) : List Char :=
  ((s.dropWhile isPySpace).reverse.dropWhile isPySpace).reverse

/-- `term[:-n]` for `n ≤ len term`: drop the last `n` characters. -/
def dropRightChars (s : List Char) (n : Nat) : List Char :=
  s.take (s.length - n)

/-! ## `float(s)` — Python float-literal parsing

`pyFloat` models the builtin `float` on already-stripped strings, for the
decimal grammar `[sign] digits [. digits] [e [sign] digits]` with at least
one mantissa digit.  (Python additionally accepts `inf`/`nan` and `_` digit
separators; chemistry coefficients never use those.)  The result is the
exact rational value of the literal. -/

/-- The value of a decimal digit character (`c.isDigit` plus
`ord(c) - ord('0')`), `none` for a non-digit. -/
def digitVal? (c : Char) : Option Nat :=
  if c = '0' then some 0 else if c = '1' then some 1 else if c = '2' then some 2
  else if c = '3' then some 3 else if c = '4' then some 4 else if c = '5' then some 5
  else if c = '6' then some 6 else if c = '7' then some 7 else if c = '8' then some 8
  else if c = '9' then some 9 else none

/-- Consume a leading run of decimal digits, returning their value, their
count and the rest of the string. -/
def takeDigits : List Char → Nat → Nat → Nat × Nat × List Char
  | c :: rest, acc, n =>
    match digitVal? c with
    | some d => takeDigits rest (10 * acc + d) (n + 1)
    | none => (acc, n, c :: rest)
  | [], acc, n => (acc, n, [])

/-- Parse an optional `+`/`-` sign, returning the sign and the rest. -/
def takeSign : List Char → Bool × List Char
  | '-' :: rest => (true, rest)
  | '+' :: rest => (false, rest)
  | s => (false, s)

/-- Parse the exponent part after `e`/`E`. -/
def pyFloatExp : List Char → Option Int
  | s =>
    let (neg, s1) := takeSign s
    let (v, n, s2) := takeDigits s1 0 0
    if n = 0 ∨ s2 ≠ [] then none
    else some (if neg then -(v : Int) else (v : Int))

/-- `float(s)` on a stripped string: `none` models a `ValueError`. -/
def pyFloat (s : List Char) : Option ℚ :=
  let (neg, s1) := takeSign s
  let (ip, nInt, s2) := takeDigits s1 0 0
  let (fracVal, nFrac, s3) :=
    match s2 with
    | '.' :: rest => takeDigits rest 0 0
    | _ => (0, 0, s2)
  if nInt + nFrac = 0 then none
  else
    let mantissa : ℚ := (ip : ℚ) + (fracVal : ℚ) / (10 : ℚ) ^ nFrac
    let signed : ℚ := if neg then -mantissa else mantissa
    match s3 with
    | [] => some signed
    | 'e' :: rest =>
      match pyFloatExp rest with
      | some ex => some (signed * (10 : ℚ) ^ ex)
      | none => none
    | 'E' :: rest =>
      match pyFloatExp rest with
      | some ex => some (signed * (10 : ℚ) ^ ex)
      | none => none
    | _ => none

/-! ## Formula parsing (`GlobalModel._parse_formula`) -/

/-- Stable insertion of a species name into a list sorted by decreasing
length: the new name goes after every name at least as long.  Folding over
the original species list reproduces
`sorted(self.species, key=len, reverse=True)` (Python's sort is stable). -/
def insertByLenDesc (x : String) : List String → List String
  | [] => [x]
  | y :: ys => if x.length ≤ y.length then y :: insertByLenDesc x ys else x :: y :: ys

/-- `sorted(species, key=len, reverse=True)`. -/
def sortByLenDesc (species : List String) : List String :=
  species.foldl (fun acc s => insertByLenDesc s acc) []

/-- Add `c` to the entry at index `idx` of a coefficient vector
(`stoich_vector[idx] += coeff`). -/
def addAt (v : List ℚ) (idx : Nat) (c : ℚ) : List ℚ :=
  v.set idx (v.getD idx 0 + c)

/-- `list.index(a)` for an element known to be present (`_parse_formula`
only looks up names drawn from the species list itself). -/
def listIndexOf (a : String) : List String → Nat
  | [] => 0
  | x :: xs => if x = a then 0 else listIndexOf a xs + 1

/-- `list.index(a)` returning `none` for the `ValueError` of a missing
element. -/
def listIndexOf? (a : String) : List String → Option Nat
  | [] => none
  | x :: xs => if x = a then some 0 else (listIndexOf? a xs).map (· + 1)

/-- The inner species-matching loop of `_parse_formula`: try each name of
`sorted_species` in order; on an `endswith` match, parse the leading
coefficient (`1.0` when absent); if the coefficient text is not a float,
`continue` with the next candidate name.  Returns the index (in the
original species order) and the coefficient, or `none` when no candidate
matches. -/
def matchTerm (species : List String) (term : List Char) :
    List String → Option (Nat × ℚ)
  | [] => none
  | name :: rest =>
    if name.data.isSuffixOf term then
      let coeffStr := pyStrip (dropRightChars term name.data.length)
      if coeffStr = [] then some (listIndexOf name species, 1)
      else
        match pyFloat coeffStr with
        | some c => some (listIndexOf name species, c)
        | none => matchTerm species term rest
    else matchTerm species term rest

/-- One `for term in terms` iteration of `_parse_formula`: an empty term is
skipped, a matched term accumulates its coefficient, an unmatched term only
appends a warning message (the printed `WARNING:` line) and leaves the
vector unchanged. -/
def parseTermStep (species : List String) (sortedSpecies : List String)
    (acc : List ℚ × List (List Char)) (term : List Char) : List ℚ × List (List Char) :=
  if term = [] then acc
  else
    match matchTerm species term sortedSpecies with
    | some (idx, c) => (addAt acc.1 idx c, acc.2)
    | none => (acc.1, acc.2 ++ [term])

/-- `GlobalModel._parse_formula`: split one side of a reaction formula on
the literal delimiter `" + "`, strip each term, and resolve each term
against the species list sorted longest-first.  Returns the stoichiometric
coefficient vector together with the list of unparsed terms that were
merely warned about. -/
def parseFormula (species : List String) (formulaPart : List Char) :
    List ℚ × List (List Char) :=
  let sortedSpecies := sortByLenDesc species
  let terms := (pySplitPlusDelim formulaPart).map pyStrip
  terms.foldl (parseTermStep species sortedSpecies) (List.replicate species.length 0, [])

/-! ## Stoichiometry matrices (`GlobalModel._create_stoich_matrices`) -/

/-- Row subtraction used for `net_matrix = right_matrix - left_matrix`. -/
def rowSub (a b : List ℚ) : List ℚ := List.zipWith (· - ·) a b

/-- `GlobalModel._create_stoich_matrices`: for each reaction, split its
formula on `"->"` (exactly one arrow required — otherwise the tuple
unpacking `reactants_str, products_str = formula.split('->')` raises a
`ValueError`), parse both sides, and return
`(net_matrix, left_matrix) = (right - left, left)`.  The builder reads
only each reaction's formula string, so reactions are passed as their
formulas.  `stoichRows` is the per-reaction loop, producing one
(product-vector, reactant-vector) pair per formula or the first
`ValueError`. -/
def stoichRows (species : List String) : List String → Except String (List (List ℚ × List ℚ))
  | [] => Except.ok []
  | f :: fs =>
    match pySplitArrow f.data with
    | [reactantsStr, productsStr] =>
      match stoichRows species fs with
      | Except.ok rest =>
        Except.ok (((parseFormula species productsStr).1,
          (parseFormula species reactantsStr).1) :: rest)
      | Except.error e => Except.error e
    | _ => Except.error "ValueError: formula must contain exactly one ->"

def createStoichMatrices (species : List String) (formulas : List String) :
    Except String (List (List ℚ) × List (List ℚ)) :=
  match stoichRows species formulas with
  | Except.error e => Except.error e
  | Except.ok rows =>
    Except.ok (rows.map (fun rw => rowSub rw.1 rw.2), rows.map Prod.snd)

/-! ## Expression compiler (`chemistry_parser._build_lambda`)

`_build_lambda` first substitutes the shorthand identifiers textually
(each occurrence of the two characters `Te` becomes the nine characters of
a subscript of `p` by the key `Te_eV`, then each occurrence of `Tg` becomes
a subscript of `p` by the key `Tg_K`), then runs `ast.parse` in `eval`
mode, then walks the tree with `_validate`, and only then compiles it to a
callable.  The AST of `eval`-mode expressions is embedded as `PyExpr`; an
`import` statement is not an expression, so sources containing one fail at
`ast.parse` and reach `buildLambda` as a parse failure.  Node kinds outside
the whitelist (lambda, comparison, dict, ...) are represented uniformly by
the `other` constructor carrying the kind name, exactly the information
`_validate` uses to reject them. -/

/-- Arithmetic operators admitted by the node whitelist. -/
inductive PyOp where
  | add | sub | mult | div | pow
deriving DecidableEq

/-- Python `eval`-mode expression ASTs, as walked by `_validate`. -/
inductive PyExpr where
  /-- numeric `ast.Constant` -/
  | num (q : ℚ)
  /-- string `ast.Constant` (subscript keys) -/
  | strLit (s : String)
  /-- `ast.Name` -/
  | name (s : String)
  /-- `ast.BinOp` -/
  | binop (op : PyOp) (a b : PyExpr)
  /-- `ast.UnaryOp` with `ast.USub` -/
  | usub (a : PyExpr)
  /-- `ast.Attribute` -/
  | attr (v : PyExpr) (field : String)
  /-- `ast.Subscript` -/
  | subscript (v : PyExpr) (slice : PyExpr)
  /-- `ast.Call` (positional arguments) -/
  | call (f : PyExpr) (args : List PyExpr)
  /-- `ast.Tuple` -/
  | tup (es : List PyExpr)
  /-- `ast.List` -/
  | listLit (es : List PyExpr)
  /-- any node kind outside `allowed_nodes`, carrying its kind name -/
  | other (kind : String) (children : List PyExpr)

/-- The whitelisted math function names (`allowed_func_names`). -/
def allowedFuncNames : List String := ["exp", "sqrt", "log"]

/-- The position of a node relative to its parent: `_validate` passes the
parent and checks `isinstance(parent, ast.Call) and parent.func is node`;
`callFunc` is exactly the position where that test succeeds. -/
inductive Pos where
  | callFunc | plain
deriving DecidableEq

/-- Unwind a chain of subscripts (`while isinstance(root, ast.Subscript):
root = root.value`). -/
def subRoot : PyExpr → PyExpr
  | .subscript v _ => subRoot v
  | e => e

/-- Whether an expression is exactly the parameter-context name `p`. -/
def isNameP : PyExpr → Bool
  | .name n => n = "p"
  | _ => false

/-- The check `_validate` applies to `node.func` at a `Call` node. -/
def callCheck : PyExpr → Except String Unit
  | .attr (.name v) a =>
    if v = "p" ∧ a = "get" then .ok ()
    else if v = "math" then
      if a ∈ allowedFuncNames then .ok ()
      else .error ("math." ++ a ++ " not whitelisted")
    else .error ("Only p.get() and math.<func>() calls allowed, got: " ++ a)
  | .attr _ a => .error ("Only p.get() and math.<func>() calls allowed, got: " ++ a)
  | .name n =>
    if n ∈ allowedFuncNames then .ok ()
    else .error ("Function " ++ n ++ " not whitelisted")
  | _ => .error "Unsupported callable form"

mutual
/-- `chemistry_parser._validate`: check the node against the whitelist,
then its local rules (name whitelist, attribute position, call form,
subscript root), then recurse into the children in field order. -/
def validate : PyExpr → Pos → Except String Unit
  | .num _, _ => .ok ()
  | .strLit _, _ => .ok ()
  | .name n, _ =>
    if n = "p" ∨ n = "math" ∨ n ∈ allowedFuncNames then .ok ()
    else .error ("Disallowed name: " ++ n)
  | .binop _ a b, _ => do
    validate a .plain
    validate b .plain
  | .usub a, _ => validate a .plain
  | .attr v _, pos =>
    match pos with
    | .callFunc => validate v .plain
    | .plain => .error "Attribute access only allowed in function calls (p.get, math.func)"
  | .subscript v s, _ =>
    if isNameP (subRoot v) then do
      validate v .plain
      validate s .plain
    else .error "Only p[...] chained subscripts allowed"
  | .call f args, _ => do
    callCheck f
    validate f .callFunc
    validateList args
  | .tup es, _ => validateList es
  | .listLit es, _ => validateList es
  | .other kind _, _ => .error ("Disallowed syntax: " ++ kind)

/-- Child traversal of `_validate` over a list of sibling nodes. -/
def validateList : List PyExpr → Except String Unit
  | [] => .ok ()
  | e :: es => do
    validate e .plain
    validateList es
end

/-- An attribute access that the safety policy documents as acceptable: the
accessor `p.get`, or a whitelisted math-namespace function. -/
def allowedAccessor (v : PyExpr) (a : String) : Bool :=
  match v with
  | .name n => (n = "p" ∧ a = "get") ∨ (n = "math" ∧ a ∈ allowedFuncNames)
  | _ => false

mutual
/-- Specification-side predicate (from the safety-policy wording, not from
`_validate`): the tree contains an attribute access other than the
documented accessor or a whitelisted math-namespace call, or a subscript
whose root identifier is not `p`. -/
def hasForbidden : PyExpr → Pos → Bool
  | .num _, _ => false
  | .strLit _, _ => false
  | .name _, _ => false
  | .binop _ a b, _ => hasForbidden a .plain || hasForbidden b .plain
  | .usub a, _ => hasForbidden a .plain
  | .attr v a, pos =>
    (match pos with
     | .callFunc => !allowedAccessor v a
     | .plain => true) || hasForbidden v .plain
  | .subscript v s, _ =>
    !isNameP (subRoot v) || hasForbidden v .plain || hasForbidden s .plain
  | .call f args, _ => hasForbidden f .callFunc || hasForbiddenList args
  | .tup es, _ => hasForbiddenList es
  | .listLit es, _ => hasForbiddenList es
  | .other _ es, _ => hasForbiddenList es

/-- `hasForbidden` over sibling nodes. -/
def hasForbiddenList : List PyExpr → Bool
  | [] => false
  | e :: es => hasForbidden e .plain || hasForbiddenList es
end

/-- One arithmetic step of the compiled function, over exact rationals;
division by zero (a `ZeroDivisionError`) is `none`, and a non-integer
exponent (an irrational power, outside the rational model) is also mapped
to `none`. -/
def evalBinop (op : PyOp) (x y : ℚ) : Option ℚ :=
  match op with
  | .add => some (x + y)
  | .sub => some (x - y)
  | .mult => some (x * y)
  | .div => if y = 0 then none else some (x / y)
  | .pow => if y.den = 1 then (if x = 0 ∧ y.num < 0 then none else some (x ^ y.num)) else none

/-- Numeric evaluation of a validated tree against a flat parameter
context, covering the fragment the verified properties exercise: numeric
constants, arithmetic, unary minus, and single subscripts of `p` by a
string key.  Transcendental calls and nested-dict values are outside the
rational model and evaluate to `none`. -/
def evalExpr (ctx : String → Option ℚ) : PyExpr → Option ℚ
  | .num q => some q
  | .binop op a b =>
    match evalExpr ctx a, evalExpr ctx b with
    | some x, some y => evalBinop op x y
    | _, _ => none
  | .usub a => (evalExpr ctx a).map Neg.neg
  | .subscript (.name n) (.strLit k) => if n = "p" then ctx k else none
  | _ => none

/-- `_build_lambda` from the parse stage on: a syntax failure from
`ast.parse` is re-raised as a `ValueError`; an accepted tree is validated
and only then turned into a callable.  (The numeric fast path for
`int`/`float` inputs returns a constant function before any parsing and is
not represented here.) -/
def buildLambda (parsed : Except String PyExpr) :
    Except String ((String → Option ℚ) → Option ℚ) :=
  match parsed with
  | .error msg => .error ("Invalid expression syntax: " ++ msg)
  | .ok tree =>
    match validate tree .plain with
    | .error m => .error m
    | .ok _ => .ok (fun ctx => evalExpr ctx tree)

/-- The apostrophe character (ASCII 39), as written around subscript keys
in the substituted text. -/
def quoteChar : Char := Char.ofNat 39

/-- The replacement text for the electron-temperature shorthand: a
subscript of `p` by the quoted key `Te_eV`. -/
def teExpansion : List Char := 'p' :: '[' :: quoteChar :: ("Te_eV".data ++ [quoteChar, ']'])

/-- The replacement text for the gas-temperature shorthand: a subscript of
`p` by the quoted key `Tg_K`. -/
def tgExpansion : List Char := 'p' :: '[' :: quoteChar :: ("Tg_K".data ++ [quoteChar, ']'])

/-- `str.replace` with the two-character pattern `Te`: scan left to right,
replace each non-overlapping occurrence, never rescanning replacement
text. -/
def substTe : List Char → List Char
  | 'T' :: 'e' :: rest => teExpansion ++ substTe rest
  | c :: rest => c :: substTe rest
  | [] => []

/-- `str.replace` with the two-character pattern `Tg`. -/
def substTg : List Char → List Char
  | 'T' :: 'g' :: rest => tgExpansion ++ substTg rest
  | c :: rest => c :: substTg rest
  | [] => []

/-- The shortcut substitution applied by `_build_lambda` before parsing:
first every `Te`, then every `Tg`. -/
def substShortcuts (s : List Char) : List Char := substTg (substTe s)

/-! ## Dictionaries

Python dicts with string keys, in insertion order: `dictSet` overwrites in
place or appends a fresh key, exactly as `d[k] = v`; `dictUpdate` is
`d.update(other)`. -/

/-- `d[k] = v` on an insertion-ordered dict. -/
def dictSet : List (String × ℚ) → String → ℚ → List (String × ℚ)
  | [], k, v => [(k, v)]
  | (k0, v0) :: rest, k, v =>
    if k0 = k then (k0, v) :: rest else (k0, v0) :: dictSet rest k v

/-- `d.get(k)`. -/
def dictGet? : List (String × ℚ) → String → Option ℚ
  | [], _ => none
  | (k0, v0) :: rest, k => if k0 = k then some v0 else dictGet? rest k

/-- `d.update(upd)`. -/
def dictUpdate (d : List (String × ℚ)) (upd : List (String × ℚ)) : List (String × ℚ) :=
  upd.foldl (fun acc kv => dictSet acc kv.1 kv.2) d

/-! ## EEDF coupling layer

The result of one external EEDF solve, as consumed by
`_get_eedf_rate_coefficient`: only its `rate_coefficients` mapping (keyed
by process identifier) is read by the kinetics engine.  The cache
`self.eedf_results` maps trigger timestamps to results; the backend
invocation `run_eedf(self.mdef, request)` is abstracted as a function of
the trigger timestamp and the current clamped densities (everything in the
request is derived from those and from static configuration). -/

structure EedfResult where
  rate_coefficients : List (String × ℚ)
deriving DecidableEq

/-- The `self.eedf_results` dict, in insertion order. -/
abbrev EedfCache := List (ℚ × EedfResult)

/-- Timestamp-keyed dict lookup (`ts in self.eedf_results` /
`self.eedf_results[ts]`). -/
def cacheLookup : EedfCache → ℚ → Option EedfResult
  | [], _ => none
  | (k, v) :: rest, ts => if k = ts then some v else cacheLookup rest ts

/-- The absolute trigger/lookup tolerance `1e-9`. -/
def eedfTol : ℚ := 1 / 10 ^ 9

/-- `max` of a nonempty Python list (the empty case is unreachable where
this is used). -/
def pyMax : List ℚ → ℚ
  | [] => 0
  | [x] => x
  | x :: y :: rest => max x (pyMax (y :: rest))

/-- `GlobalModel._get_eedf_rate_coefficient`: with an empty cache the rate
is zero; otherwise take the most recent cached timestamp at or before
`t + 1e-9` (step-function hold); a missing or falsy process identifier, or
a process absent from the cached rate coefficients, yields zero. -/
def getEedfRateCoefficient (cache : EedfCache) (process : Option String) (t : ℚ) : ℚ :=
  if cache = [] then 0
  else
    let validTs := (cache.map Prod.fst).filter (fun ts => ts ≤ t + eedfTol)
    if validTs = [] then 0
    else
      let currentTs := pyMax validTs
      let result := (cacheLookup cache currentTs).getD ⟨[]⟩
      match process with
      | none => 0
      | some pid =>
        if pid = "" then 0
        else
          match dictGet? result.rate_coefficients pid with
          | some k => k
          | none => 0

/-- One iteration of the trigger loop in `_ode_system`: a trigger
timestamp within `1e-9` of the evaluation time whose key is not yet in the
cache invokes the backend once and stores the response under that
timestamp; everything else leaves the state unchanged.  The second
component records the timestamps at which the backend was invoked. -/
def eedfTriggerStep (backend : ℚ → List ℚ → EedfResult) (densities : List ℚ) (t : ℚ)
    (acc : EedfCache × List ℚ) (ts : ℚ) : EedfCache × List ℚ :=
  if |t - ts| < eedfTol ∧ cacheLookup acc.1 ts = none then
    (acc.1 ++ [(ts, backend ts densities)], acc.2 ++ [ts])
  else acc

/-- The whole `if self.eedf_enabled: for ts in self.eedf_timestamps: ...`
block of `_ode_system`. -/
def eedfPass (enabled : Bool) (timestamps : List ℚ) (backend : ℚ → List ℚ → EedfResult)
    (densities : List ℚ) (t : ℚ) (cache : EedfCache) : EedfCache × List ℚ :=
  if enabled then timestamps.foldl (eedfTriggerStep backend densities t) (cache, [])
  else (cache, [])

/-! ## Kinetics engine (`GlobalModel._ode_system`) -/

/-- `q_e = 1.6022e-19` (elementary charge, Coulomb). -/
def const_qe : ℚ := 16022 / 10 ^ 23

/-- `kb = 1.3807e-23` (Boltzmann constant, J/K). -/
def const_kb : ℚ := 13807 / 10 ^ 27

/-- The exact rational value of the 64-bit float `np.pi`. -/
def pyPi : ℚ := 884279719003555 / 2 ^ 48

/-- The positive floor `1e-10` applied to densities and to the bulk
electron energy density. -/
def epsFloor : ℚ := 1 / 10 ^ 10

/-- `densities = np.maximum(y[:-1], 1e-10)`. -/
def clampDensities (y : List ℚ) : List ℚ :=
  y.dropLast.map (fun d => max d epsFloor)

/-- `ne_density = densities[self.species.index('e')]`: `none` models the
`ValueError` of a missing electron species or an out-of-range index. -/
def electronDensity (species : List String) (y : List ℚ) : Option ℚ :=
  match listIndexOf? "e" species with
  | none => none
  | some eIdx => (clampDensities y).get? eIdx

/-- `Te_eV = (2.0 / 3.0) * electron_energy_density / ne_density` with
`electron_energy_density = max(y[-1], 1e-10)`. -/
def deriveTe (species : List String) (y : List ℚ) : Option ℚ :=
  match y.getLast?, electronDensity species y with
  | some eRaw, some ne => some (2 / 3 * max eRaw epsFloor / ne)
  | _, _ => none

/-- The evaluation context handed to the declarations callable and to the
compiled rate/energy expressions.  The engine-supplied scalar entries are
fields; the string-keyed remainder (geometry, constant data and the
declaration outputs merged in) is `data`. -/
structure OdeParams where
  Te_eV : ℚ
  densities : List ℚ
  Y : List ℚ
  t : ℚ
  na : ℚ
  data : List (String × ℚ)

/-- The two exception types caught around the declarations call. -/
inductive DeclErr where
  | valueError | zeroDivisionError

/-- One reaction as stored in `self.mdef['reactions']`, restricted to the
fields `_ode_system` reads. -/
structure Reaction where
  formula : String
  rtype : String
  use_eedf : Bool
  process : Option String
  rateFn : OdeParams → ℚ
  energyFn : OdeParams → ℚ

/-- The model definition (`self.mdef`), restricted to the parts the
verified properties exercise; the optional `flow_parameters` block of
`_ode_system` (pumping/inflow, lines 324-367) is not represented, so the
embedding covers model definitions without that block — none of the
verified properties involves it. -/
structure GModel where
  species : List String
  reactions : List Reaction
  geometry : List (String × ℚ)
  constant_data : List (String × ℚ)
  declarations : OdeParams → Except DeclErr (List (String × ℚ))
  eedf_enabled : Bool
  eedf_timestamps : List ℚ
  power_input : Option (ℚ → ℚ → ℚ)

/-- Python `x or y` over optional floats (`None` and `0.0` are falsy). -/
def pyOrOpt (a b : Option ℚ) : Option ℚ :=
  match a with
  | some x => if x = 0 then b else some x
  | none => b

/-- Python truthiness of an optional float. -/
def pyTruthy : Option ℚ → Bool
  | none => false
  | some x => x ≠ 0

/-- The string-keyed part of the parameter dict: geometry then constant
data, then the derived `volume`/`area` when absent (computed from a radius
and length found under either name), then the `Tg_K` alias for `Th_K`. -/
def assembleData (m : GModel) : List (String × ℚ) :=
  let d := dictUpdate (dictUpdate [] m.geometry) m.constant_data
  let d :=
    match dictGet? d "volume" with
    | some _ => d
    | none =>
      let r0 := pyOrOpt (dictGet? d "radius_m") (dictGet? d "R")
      let l0 := pyOrOpt (dictGet? d "length_m") (dictGet? d "L")
      if pyTruthy r0 ∧ pyTruthy l0 then
        match r0, l0 with
        | some r, some l =>
          dictUpdate d [("volume", pyPi * r ^ 2 * l),
                        ("area", 2 * pyPi * r ^ 2 + 2 * pyPi * r * l)]
        | _, _ => d
      else d
  match dictGet? d "Th_K", dictGet? d "Tg_K" with
  | some th, none => dictSet d "Tg_K" th
  | _, _ => d

/-- Lines 167-200 of `_ode_system`: clamp the state, derive `Te_eV`, and
assemble the parameter context (`'Y': [0] + list(densities)`,
`'na': np.sum(densities)`).  The `Except` carries the uncaught exceptions
of those lines (empty state vector, missing electron species). -/
def buildParams (m : GModel) (t : ℚ) (y : List ℚ) : Except String OdeParams :=
  match y.getLast? with
  | none => Except.error "IndexError: state vector is empty"
  | some _ =>
    match deriveTe m.species y with
    | none => Except.error "ValueError: e is not in the species list"
    | some te =>
      let densities := clampDensities y
      Except.ok { Te_eV := te, densities := densities, Y := 0 :: densities, t := t,
                  na := densities.sum, data := assembleData m }

/-- `densities[j] ** reactants[j]` over rationals: stoichiometric
coefficients are parsed floats, and for the integer-valued coefficients of
every chemistry set this is the exact power; an irrational power (a
non-integer exponent) has no rational value and is mapped to `0`. -/
def ratPow (b : ℚ) (e : ℚ) : ℚ :=
  if e.den = 1 then b ^ e.num else 0

/-- Lines 313-316: `rate = k`, then one factor
`densities[j] ** reactants[j]` for every species with a positive reactant
coefficient.  The reaction type tag is not consulted. -/
def reactionRate (numSpecies : Nat) (k : ℚ) (leftRow densities : List ℚ) : ℚ :=
  (List.range numSpecies).foldl
    (fun rate j =>
      if 0 < leftRow.getD j 0 then rate * ratPow (densities.getD j 0) (leftRow.getD j 0)
      else rate) k

/-- Lines 307-311: the rate coefficient comes from the EEDF cache exactly
when the reaction opts in (`use_eedf`, default false) and the cache is
non-empty (`and self.eedf_results`); otherwise from the compiled rate
expression. -/
def resolveRateCoefficient (r : Reaction) (cache : EedfCache) (params : OdeParams) (t : ℚ) : ℚ :=
  if r.use_eedf ∧ cache ≠ [] then getEedfRateCoefficient cache r.process t
  else r.rateFn params

/-- The chemical-rate loop (lines 303-317): one rate per reaction. -/
def computeRates (reactions : List Reaction) (leftMatrix : List (List ℚ)) (numSpecies : Nat)
    (cache : EedfCache) (params : OdeParams) (densities : List ℚ) (t : ℚ) : List ℚ :=
  List.zipWith
    (fun r row => reactionRate numSpecies (resolveRateCoefficient r cache params t) row densities)
    reactions leftMatrix

/-- Lines 320-321: `dY_dt[i] = np.sum(reaction_rates * net[:, i])`. -/
def particleDerivs (netMatrix : List (List ℚ)) (rates : List ℚ) (numSpecies : Nat) : List ℚ :=
  (List.range numSpecies).map
    (fun i => (List.zipWith (fun rate row => rate * row.getD i 0) rates netMatrix).sum)

/-- `GlobalModel._ode_system` without the optional flow block: build the
parameter context; call the declarations callable, and on a caught
`ValueError`/`ZeroDivisionError` return `np.full_like(y, np.nan)` — a
vector of NaN (`none`) of the length of the input state — leaving the
cache untouched; otherwise merge the declared parameters, run the EEDF
trigger pass, compute rates, particle balance and power balance.  The
returned triple is (derivative vector, updated cache, backend-invocation
timestamps); the outer `Except` carries the exceptions `_ode_system` does
not catch. -/
def odeRhs (m : GModel) (netMatrix leftMatrix : List (List ℚ))
    (backend : ℚ → List ℚ → EedfResult) (cache : EedfCache) (t : ℚ) (y : List ℚ) :
    Except String (List (Option ℚ) × EedfCache × List ℚ) := do
  let params ← buildParams m t y
  match m.declarations params with
  | .error _ => Except.ok (List.replicate y.length none, cache, [])
  | .ok declared =>
    let params2 := { params with data := dictUpdate params.data declared }
    let (cache2, calls) := eedfPass m.eedf_enabled m.eedf_timestamps backend params2.densities t cache
    let rates := computeRates m.reactions leftMatrix m.species.length cache2 params2 params2.densities t
    let dY := particleDerivs netMatrix rates m.species.length
    let volume ← match dictGet? params2.data "volume" with
      | some v => Except.ok v
      | none => Except.error "KeyError: volume"
    let powerW := match m.power_input with
      | some f => f t volume
      | none => (dictGet? m.constant_data "power_input_W").getD 0
    if volume = 0 then Except.error "ZeroDivisionError: volume is zero"
    else
      let qAbs := powerW / const_qe / volume
      let qLoss := (List.zipWith (fun rate r => rate * r.energyFn params2) rates m.reactions).sum
      Except.ok ((dY ++ [qAbs - qLoss]).map some, cache2, calls)

/-! ## Initial conditions (`GlobalModel.get_initial_conditions`) -/

/-- An indexed map, the `for i, species in enumerate(...)` loop shape. -/
def mapFrom (f : Nat → α → β) : Nat → List α → List β
  | _, [] => []
  | i, a :: as => f i a :: mapFrom f (i + 1) as

/-- `GlobalModel.get_initial_conditions`: the first-listed species is the
background gas — the seed loop skips index 0, sums the seed partial
pressures (electron seed at the initial electron temperature, every other
seed at the gas temperature), raises a `ValueError` when they exceed the
total pressure, and fills slot 0 with the remainder converted to a density
at the gas temperature; the bulk electron energy density
`(3/2)·ne·Te_eV` is appended. -/
def getInitialConditions (species : List String) (iv : List (String × ℚ)) (Th_K : ℚ) :
    Except String (List ℚ) :=
  let te := (dictGet? iv "Te_eV").getD 2
  let teK := te * const_qe / const_kb
  let pPa :=
    match dictGet? iv "p" with
    | some v => v
    | none => (dictGet? iv "pressure").getD 10
  match listIndexOf? "e" species with
  | none => Except.error "ValueError: e is not in list"
  | some eIdx =>
    let y0 := mapFrom (fun i s => if i = 0 then 0 else (dictGet? iv s).getD 0) 0 species
    let seedPressure :=
      (mapFrom (fun i v => if i = 0 then 0
                           else v * const_kb * (if i = eIdx then teK else Th_K)) 0 y0).sum
    let bg := pPa - seedPressure
    if bg < 0 then
      Except.error "ValueError: Sum of partial pressures of seed species is > total pressure."
    else
      let y0b := y0.set 0 (bg / (const_kb * Th_K))
      match y0b.get? eIdx with
      | none => Except.error "IndexError: electron index out of range"
      | some neInit => Except.ok (y0b ++ [3 / 2 * neInit * te])

/-! ## Theorems -/

/-- Appending entries on the right never changes an existing key's value. -/
theorem cacheLookup_append_left (c : EedfCache) (l : EedfCache) (k : ℚ) (r : EedfResult)
    (h : cacheLookup c k = some r) : cacheLookup (c ++ l) k = some r := by
  induction c with
  | nil => simp [cacheLookup] at h
  | cons hd tl ih =>
    obtain ⟨k0, v0⟩ := hd
    by_cases hk : k0 = k
    · simpa [cacheLookup, hk] using h
    · simp only [List.cons_append, cacheLookup, hk, if_false] at h ⊢
      exact ih h

/-- Appending a fresh key makes it found. -/
theorem cacheLookup_append_fresh (c : EedfCache) (k : ℚ) (r : EedfResult)
    (h : cacheLookup c k = none) : cacheLookup (c ++ [(k, r)]) k = some r := by
  induction c with
  | nil => simp [cacheLookup]
  | cons hd tl ih =>
    obtain ⟨k0, v0⟩ := hd
    by_cases hk : k0 = k
    · simp [cacheLookup, hk] at h
    · simp only [List.cons_append, cacheLookup, hk, if_false] at h ⊢
      exact ih h

/-- One trigger step preserves every cached entry. -/
theorem eedfTriggerStep_preserves (backend : ℚ → List ℚ → EedfResult) (d : List ℚ)
    (t : ℚ) (acc : EedfCache × List ℚ) (ts k : ℚ) (r : EedfResult)
    (h : cacheLookup acc.1 k = some r) :
    cacheLookup (eedfTriggerStep backend d t acc ts).1 k = some r := by
  unfold eedfTriggerStep
  split
  · exact cacheLookup_append_left _ _ _ _ h
  · exact h

/-- The whole trigger loop preserves every cached entry. -/
theorem eedfFold_preserves (backend : ℚ → List ℚ → EedfResult) (d : List ℚ) (t : ℚ)
    (tss : List ℚ) (acc : EedfCache × List ℚ) (k : ℚ) (r : EedfResult)
    (h : cacheLookup acc.1 k = some r) :
    cacheLookup (tss.foldl (eedfTriggerStep backend d t) acc).1 k = some r := by
  induction tss generalizing acc with
  | nil => exact h
  | cons ts rest ih =>
    exact ih _ (eedfTriggerStep_preserves backend d t acc ts k r h)

/-- After the trigger loop, every trigger timestamp within tolerance of the
evaluation time has a cache entry. -/
theorem eedfFold_covers (backend : ℚ → List ℚ → EedfResult) (d : List ℚ) (t : ℚ)
    (tss : List ℚ) (acc : EedfCache × List ℚ) (ts0 : ℚ)
    (hmem : ts0 ∈ tss) (htol : |t - ts0| < eedfTol) :
    ∃ r, cacheLookup (tss.foldl (eedfTriggerStep backend d t) acc).1 ts0 = some r := by
  induction tss generalizing acc with
  | nil => cases hmem
  | cons ts rest ih =>
    rcases List.mem_cons.mp hmem with h | h
    · subst h
      rcases hlook : cacheLookup acc.1 ts0 with _ | r
      · have hstep : cacheLookup (eedfTriggerStep backend d t acc ts0).1 ts0 =
            some (backend ts0 d) := by
          unfold eedfTriggerStep
          rw [if_pos ⟨htol, hlook⟩]
          exact cacheLookup_append_fresh _ _ _ hlook
        exact ⟨_, eedfFold_preserves backend d t rest _ ts0 _ hstep⟩
      · exact ⟨_, eedfFold_preserves backend d t rest _ ts0 r
          (eedfTriggerStep_preserves backend d t acc ts0 ts0 r hlook)⟩
    · exact ih _ h

/-- If every in-tolerance trigger timestamp is already cached, the trigger
loop changes nothing and invokes nothing. -/
theorem eedfFold_noop (backend : ℚ → List ℚ → EedfResult) (d : List ℚ) (t : ℚ)
    (tss : List ℚ) (c : EedfCache) (l : List ℚ)
    (h : ∀ ts0 ∈ tss, |t - ts0| < eedfTol → ∃ r, cacheLookup c ts0 = some r) :
    tss.foldl (eedfTriggerStep backend d t) (c, l) = (c, l) := by
  induction tss with
  | nil => rfl
  | cons ts rest ih =>
    have hstep : eedfTriggerStep backend d t (c, l) ts = (c, l) := by
      unfold eedfTriggerStep
      split
      · rename_i hcond
        rcases h ts (List.mem_cons_self ts rest) hcond.1 with ⟨r, hr⟩
        rw [hcond.2] at hr
        cases hr
      · rfl
    rw [List.foldl_cons, hstep]
    exact ih (fun ts0 hmem htol => h ts0 (List.mem_cons_of_mem ts hmem) htol)

/-- C5: re-evaluating the ODE right-hand side at a time whose in-tolerance
trigger timestamps are already cached re-invokes nothing: running the EEDF
trigger pass a second time at the same evaluation time (with possibly
different densities) invokes the backend zero times, leaves the cache —
and therefore every cached response and every rate lookup — identical to
what the first pass stored. -/
theorem c5_eedf_cache_idempotent (enabled : Bool) (tss : List ℚ)
    (backend : ℚ → List ℚ → EedfResult) (d1 d2 : List ℚ) (t : ℚ) (cache0 : EedfCache) :
    (eedfPass enabled tss backend d2 t (eedfPass enabled tss backend d1 t cache0).1) =
      ((eedfPass enabled tss backend d1 t cache0).1, []) ∧
    ∀ process,
      getEedfRateCoefficient (eedfPass enabled tss backend d2 t
          (eedfPass enabled tss backend d1 t cache0).1).1 process t =
        getEedfRateCoefficient (eedfPass enabled tss backend d1 t cache0).1 process t := by
  have hmain : (eedfPass enabled tss backend d2 t (eedfPass enabled tss backend d1 t cache0).1) =
      ((eedfPass enabled tss backend d1 t cache0).1, []) := by
    cases enabled with
    | false => simp [eedfPass]
    | true =>
      simp only [eedfPass, if_pos]
      exact eedfFold_noop backend d2 t tss _ []
        (fun ts0 hmem htol => eedfFold_covers backend d1 t tss (cache0, []) ts0 hmem htol)
  exact ⟨hmain, fun process => by rw [hmain]⟩

/-- C8: the rate coefficient of every reaction — EEDF-flagged or not —
comes from its compiled rate expression while the EEDF result cache is
empty; the cached-EEDF lookup takes over exactly when the reaction opts in
and at least one cached result exists. -/
theorem c8_eedf_rate_fallback (r : Reaction) (params : OdeParams) (t : ℚ)
    (entry : ℚ × EedfResult) (rest : EedfCache) :
    resolveRateCoefficient r [] params t = r.rateFn params ∧
    ∀ (fo ty : String) (proc : Option String) (fn en : OdeParams → ℚ),
      resolveRateCoefficient ⟨fo, ty, true, proc, fn, en⟩ (entry :: rest) params t =
        getEedfRateCoefficient (entry :: rest) proc t := by
  constructor
  · simp [resolveRateCoefficient]
  · intro fo ty proc fn en
    simp [resolveRateCoefficient]

/-- C6: whenever the declarations callable fails with one of the two caught
exception kinds, the ODE right-hand side returns a vector of NaN sentinels
of the same length as the input state, with the cache untouched and no
backend invocation — it does not propagate the exception. -/
theorem c6_decl_failure_returns_nan (m : GModel) (net left : List (List ℚ))
    (backend : ℚ → List ℚ → EedfResult) (cache : EedfCache) (t : ℚ) (y : List ℚ)
    (params : OdeParams) (err : DeclErr)
    (hp : buildParams m t y = .ok params) (hd : m.declarations params = .error err) :
    odeRhs m net left backend cache t y =
      .ok (List.replicate y.length none, cache, []) := by
  unfold odeRhs
  rw [hp]
  show (match m.declarations params with
    | .error _ => Except.ok (List.replicate y.length none, cache, [])
    | .ok _ => _) = _
  rw [hd]

/-- A member of a list is found by `listIndexOf?` at an in-range index. -/
theorem indexOf?_mem_bound {a : String} :
    ∀ {l : List String}, a ∈ l → ∃ i, listIndexOf? a l = some i ∧ i < l.length := by
  intro l h
  induction l with
  | nil => cases h
  | cons x xs ih =>
    by_cases hx : x = a
    · exact ⟨0, by simp [listIndexOf?, hx], by simp⟩
    · have hmem : a ∈ xs := by
        rcases List.mem_cons.mp h with h1 | h1
        · exact absurd h1.symm hx
        · exact h1
      rcases ih hmem with ⟨i, hi, hlt⟩
      refine ⟨i + 1, by simp [listIndexOf?, hx, hi], ?_⟩
      simpa using Nat.succ_lt_succ hlt

/-- C10: on every state vector of the expected length, with the electron
species present, every clamped density is at least the `1e-10` floor, the
electron density the derivation divides by is therefore nonzero, and the
derived electron temperature is strictly positive. -/
theorem c10_te_positive (species : List String) (y : List ℚ)
    (he : "e" ∈ species) (hy : y.length = species.length + 1) :
    (∀ d ∈ clampDensities y, epsFloor ≤ d) ∧
    ∃ ne te, electronDensity species y = some ne ∧ epsFloor ≤ ne ∧ ne ≠ 0 ∧
      deriveTe species y = some te ∧ 0 < te := by
  have heps : (0 : ℚ) < epsFloor := by norm_num [epsFloor]
  have hfloor : ∀ d ∈ clampDensities y, epsFloor ≤ d := by
    intro d hd
    rcases List.mem_map.mp hd with ⟨x, _, hx⟩
    rw [← hx]
    exact le_max_right x epsFloor
  refine ⟨hfloor, ?_⟩
  rcases indexOf?_mem_bound he with ⟨i, hidx, hlt⟩
  have hlen : (clampDensities y).length = species.length := by
    simp [clampDensities, hy]
  have hibound : i < (clampDensities y).length := hlen ▸ hlt
  have hget : ∃ ne, (clampDensities y).get? i = some ne :=
    ⟨(clampDensities y).get ⟨i, hibound⟩, List.get?_eq_get hibound⟩
  rcases hget with ⟨ne, hne⟩
  have hnee : epsFloor ≤ ne := hfloor ne (List.get?_mem hne)
  have hy0 : y ≠ [] := by
    intro hnil
    rw [hnil] at hy
    simp at hy
  have hlast : ∃ eRaw, y.getLast? = some eRaw := ⟨y.getLast hy0, List.getLast?_eq_getLast y hy0⟩
  rcases hlast with ⟨eRaw, hlast⟩
  have hed : electronDensity species y = some ne := by
    unfold electronDensity
    rw [hidx]
    exact hne
  refine ⟨ne, 2 / 3 * max eRaw epsFloor / ne, hed, hnee, ?_, ?_, ?_⟩
  · exact ne_of_gt (lt_of_lt_of_le heps hnee)
  · unfold deriveTe
    rw [hlast, hed]
  · have hE : (0 : ℚ) < max eRaw epsFloor := lt_of_lt_of_le heps (le_max_right _ _)
    have hne0 : (0 : ℚ) < ne := lt_of_lt_of_le heps hnee
    positivity

/-- Witness for C6: a model whose declarations callable always raises a
`ValueError`. -/
def mC6 : GModel where
  species := ["e"]
  reactions := []
  geometry := []
  constant_data := []
  declarations := fun _ => .error .valueError
  eedf_enabled := false
  eedf_timestamps := []
  power_input := none

theorem c6_witness :
    odeRhs mC6 [] [] (fun _ _ => ⟨[]⟩) [] 0 [1, 1] = .ok ([none, none], [], []) :=
  c6_decl_failure_returns_nan mC6 [] [] (fun _ _ => ⟨[]⟩) [] 0 [1, 1]
    { Te_eV := 2 / 3, densities := [1], Y := [0, 1], t := 0, na := 1, data := [] }
    .valueError
    (by norm_num +decide [buildParams, deriveTe, electronDensity, clampDensities,
      assembleData, dictGet?, dictUpdate, mC6, epsFloor, max_def, listIndexOf?,
      List.getLast?])
    rfl

theorem c10_witness :
    (∀ d ∈ clampDensities [(1 : ℚ), 1], epsFloor ≤ d) ∧
    ∃ ne te, electronDensity ["e"] [(1 : ℚ), 1] = some ne ∧ epsFloor ≤ ne ∧ ne ≠ 0 ∧
      deriveTe ["e"] [(1 : ℚ), 1] = some te ∧ 0 < te :=
  c10_te_positive ["e"] [1, 1] (by decide) (by decide)

/-- C2: evaluation of the formula parser at a side containing the unknown
term `Xy`: the parser returns normally — the term contributes zero to the
coefficient vector and is only recorded as a printed warning — and the
stoichiometry builder consequently succeeds on the whole reaction instead
of raising a construction-time error. -/
theorem c2_unmatched_term_warned_not_raised :
    parseFormula ["e", "Ar"] "Xy + Ar".data = ([0, 1], [['X', 'y']]) ∧
    createStoichMatrices ["e", "Ar"] ["Xy + Ar -> Ar"] = Except.ok ([[0, 0]], [[0, 1]]) := by
  constructor <;>
    norm_num +decide [createStoichMatrices, parseFormula, parseTermStep, matchTerm,
      sortByLenDesc, insertByLenDesc, pySplitPlusDelim, pySplitArrow, pyStrip, isPySpace,
      consHead, pyFloat, pyFloatExp, takeSign, takeDigits, digitVal?, dropRightChars, addAt,
      listIndexOf, List.isSuffixOf, List.isPrefixOf, rowSub, stoichRows]

/-- The `eval`-mode AST of the substituted text of the expression
`2.0 * Te + 3`: after shortcut substitution the text is a sum whose left
operand multiplies the constant `2.0` by a subscript of the name `p` with
the string key `Te_eV`, and whose right operand is the constant `3`
(multiplication binds tighter than addition). -/
def astTwoTePlusThree : PyExpr :=
  .binop .add (.binop .mult (.num 2) (.subscript (.name "p") (.strLit "Te_eV"))) (.num 3)

/-- C7: the shortcut substitution turns the nine characters of
`2.0 * Te + 3` into the subscripted form, the resulting tree passes
validation, the compiler returns a callable, and the callable evaluates on
every context carrying a numeric `Te_eV` entry to twice that entry plus
three. -/
theorem c7_te_shorthand_expression (ctx : String → Option ℚ) (x : ℚ)
    (hc : ctx "Te_eV" = some x) :
    substShortcuts "2.0 * Te + 3".data = "2.0 * ".data ++ teExpansion ++ " + 3".data ∧
    validate astTwoTePlusThree .plain = .ok () ∧
    buildLambda (.ok astTwoTePlusThree) = .ok (fun c => evalExpr c astTwoTePlusThree) ∧
    evalExpr ctx astTwoTePlusThree = some (2 * x + 3) := by
  refine ⟨by decide, rfl, rfl, ?_⟩
  simp [evalExpr, evalBinop, hc]

/-- Witness context for C7. -/
def ctxC7 : String → Option ℚ := fun k => if k = "Te_eV" then some 5 else none

theorem c7_witness :
    substShortcuts "2.0 * Te + 3".data = "2.0 * ".data ++ teExpansion ++ " + 3".data ∧
    validate astTwoTePlusThree .plain = .ok () ∧
    buildLambda (.ok astTwoTePlusThree) = .ok (fun c => evalExpr c astTwoTePlusThree) ∧
    evalExpr ctxC7 astTwoTePlusThree = some (2 * 5 + 3) :=
  c7_te_shorthand_expression ctxC7 5 rfl

/-- Sequencing two `Except` computations succeeds only when both do. -/
theorem exceptSeq_ok {x y : Except String Unit}
    (h : (do x; y : Except String Unit) = Except.ok ()) :
    x = Except.ok () ∧ y = Except.ok () := by
  cases x with
  | ok u => exact ⟨rfl, h⟩
  | error e => exact Except.noConfusion h

/-- A callable form accepted by the `Call` check is the documented
accessor, a whitelisted math call, or a bare whitelisted function name —
none of which is a forbidden attribute chain. -/
theorem callCheck_ok_shape (f : PyExpr) (h : callCheck f = .ok ()) :
    hasForbidden f .callFunc = false := by
  cases f with
  | num q => exact Except.noConfusion h
  | strLit s => exact Except.noConfusion h
  | name n => rfl
  | binop op a b => exact Except.noConfusion h
  | usub a => exact Except.noConfusion h
  | subscript v s => exact Except.noConfusion h
  | call f args => exact Except.noConfusion h
  | tup es => exact Except.noConfusion h
  | listLit es => exact Except.noConfusion h
  | other k es => exact Except.noConfusion h
  | attr v a =>
    cases v with
    | name w =>
      simp only [callCheck] at h
      by_cases h1 : w = "p" ∧ a = "get"
      · simp [hasForbidden, allowedAccessor, h1.1, h1.2]
      · rw [if_neg h1] at h
        by_cases h2 : w = "math"
        · rw [if_pos h2] at h
          by_cases h3 : a ∈ allowedFuncNames
          · simp [hasForbidden, allowedAccessor, h2, h3]
          · rw [if_neg h3] at h
            exact Except.noConfusion h
        · rw [if_neg h2] at h
          exact Except.noConfusion h
    | num q => exact Except.noConfusion h
    | strLit s => exact Except.noConfusion h
    | binop op x y => exact Except.noConfusion h
    | usub x => exact Except.noConfusion h
    | attr x b => exact Except.noConfusion h
    | subscript x s => exact Except.noConfusion h
    | call g args => exact Except.noConfusion h
    | tup es => exact Except.noConfusion h
    | listLit es => exact Except.noConfusion h
    | other k es => exact Except.noConfusion h

mutual
/-- A tree accepted by `_validate` contains no forbidden attribute chain
and no forbidden subscript. -/
theorem validate_ok_no_forbidden :
    ∀ (e : PyExpr), validate e .plain = .ok () → hasForbidden e .plain = false
  | .num _, _ => rfl
  | .strLit _, _ => rfl
  | .name _, _ => rfl
  | .binop op a b, h => by
    rcases exceptSeq_ok h with ⟨ha, hb⟩
    simp [hasForbidden, validate_ok_no_forbidden a ha, validate_ok_no_forbidden b hb]
  | .usub a, h => by
    simpa [hasForbidden] using validate_ok_no_forbidden a h
  | .attr v f, h => Except.noConfusion h
  | .subscript v s, h => by
    cases hr : isNameP (subRoot v) with
    | true =>
      have h' : (do validate v .plain; validate s .plain : Except String Unit) =
          .ok () := by simpa [validate, hr] using h
      rcases exceptSeq_ok h' with ⟨hv, hs⟩
      simp [hasForbidden, hr, validate_ok_no_forbidden v hv, validate_ok_no_forbidden s hs]
    | false => simp [validate, hr] at h
  | .call f args, h => by
    rcases exceptSeq_ok h with ⟨hc, h2⟩
    rcases exceptSeq_ok h2 with ⟨_, hargs⟩
    simp [hasForbidden, callCheck_ok_shape f hc, validateList_ok_no_forbidden args hargs]
  | .tup es, h => by
    simpa [hasForbidden] using validateList_ok_no_forbidden es h
  | .listLit es, h => by
    simpa [hasForbidden] using validateList_ok_no_forbidden es h
  | .other k es, h => Except.noConfusion h

/-- `validate_ok_no_forbidden` over sibling lists. -/
theorem validateList_ok_no_forbidden :
    ∀ (es : List PyExpr), validateList es = .ok () → hasForbiddenList es = false
  | [], _ => rfl
  | e :: es, h => by
    rcases exceptSeq_ok h with ⟨he, hes⟩
    simp [hasForbiddenList, validate_ok_no_forbidden e he, validateList_ok_no_forbidden es hes]
end

/-- C4: every expression tree containing a forbidden attribute chain or a
forbidden subscript is rejected at compile time — the compiler returns an
error and never a callable — and a source failing to parse at all (an
statement of an import is not an `eval`-mode expression) is likewise rejected
with a `ValueError`. -/
theorem c4_policy_violations_fail_compile (e : PyExpr)
    (h : hasForbidden e .plain = true) :
    (∃ msg, buildLambda (.ok e) = .error msg) ∧
    ∀ parseMsg, ∃ msg, buildLambda (.error parseMsg) = .error msg := by
  constructor
  · cases hv : validate e .plain with
    | error m => exact ⟨m, by simp [buildLambda, hv]⟩
    | ok u =>
      cases u
      rw [validate_ok_no_forbidden e hv] at h
      exact Bool.noConfusion h
  · intro parseMsg
    exact ⟨"Invalid expression syntax: " ++ parseMsg, rfl⟩

theorem c4_witness :
    hasForbidden (.attr (.name "math") "pi") .plain = true ∧
    (∃ msg, buildLambda (.ok (.attr (.name "math") "pi")) = .error msg) ∧
    ∀ parseMsg, ∃ msg, buildLambda (.error parseMsg) = .error msg :=
  ⟨rfl, c4_policy_violations_fail_compile (.attr (.name "math") "pi") rfl⟩

/-- `getD` of an all-zero vector is zero at every index. -/
theorem getD_replicate_zero : ∀ (m i : Nat), (List.replicate m (0 : ℚ)).getD i 0 = 0
  | 0, 0 => rfl
  | 0, _ + 1 => rfl
  | _ + 1, 0 => rfl
  | m + 1, i + 1 => getD_replicate_zero m i

/-- `getD` after `set` at the written index. -/
theorem getD_set_self : ∀ (l : List ℚ) (j : Nat) (v : ℚ), j < l.length →
    (l.set j v).getD j 0 = v
  | [], j, v, h => absurd h (by simp)
  | _ :: _, 0, _, _ => rfl
  | _ :: xs, j + 1, v, h => getD_set_self xs j v (Nat.lt_of_succ_lt_succ h)

/-- `getD` after `set` at a different index. -/
theorem getD_set_ne : ∀ (l : List ℚ) (j i : Nat) (v : ℚ), i ≠ j →
    (l.set j v).getD i 0 = l.getD i 0
  | [], _, _, _, _ => rfl
  | _ :: _, 0, 0, _, h => absurd rfl h
  | _ :: _, 0, _ + 1, _, _ => rfl
  | _ :: _, _ + 1, 0, _, _ => rfl
  | _ :: xs, j + 1, i + 1, v, h =>
    getD_set_ne xs j i v (fun e => h (by rw [e]))

/-- A rational power with exponent one is the base itself. -/
theorem ratPow_one (b : ℚ) : ratPow b 1 = b := by
  simp [ratPow]

/-- The rate-product fold ignores indices whose reactant coefficient is not
positive. -/
theorem rate_foldl_noop (row densities : List ℚ) (k : ℚ) (l : List Nat)
    (h : ∀ i ∈ l, ¬ (0 < row.getD i 0)) :
    l.foldl (fun rate j =>
      if 0 < row.getD j 0 then rate * ratPow (densities.getD j 0) (row.getD j 0)
      else rate) k = k := by
  induction l with
  | nil => rfl
  | cons i is ih =>
    rw [List.foldl_cons, if_neg (h i (List.mem_cons_self i is))]
    exact ih (fun i hi => h i (List.mem_cons_of_mem _ hi))

/-- The rate-product fold depends on the reactant row only through the
coefficients at the visited indices. -/
theorem rate_foldl_congr (row1 row2 densities : List ℚ) (l : List Nat)
    (h : ∀ i ∈ l, row1.getD i 0 = row2.getD i 0) : ∀ (k : ℚ),
    l.foldl (fun rate j =>
      if 0 < row1.getD j 0 then rate * ratPow (densities.getD j 0) (row1.getD j 0)
      else rate) k =
    l.foldl (fun rate j =>
      if 0 < row2.getD j 0 then rate * ratPow (densities.getD j 0) (row2.getD j 0)
      else rate) k := by
  induction l with
  | nil => intro k; rfl
  | cons i is ih =>
    intro k
    rw [List.foldl_cons, List.foldl_cons, h i (List.mem_cons_self i is)]
    exact ih (fun i hi => h i (List.mem_cons_of_mem _ hi)) _

/-- A reaction whose reactant row is a single unit coefficient at index `j`
has first-order rate `k · densities[j]`. -/
theorem reactionRate_single (densities : List ℚ) : ∀ (n j : Nat), j < n → ∀ (k : ℚ),
    reactionRate n k ((List.replicate n 0).set j 1) densities = k * densities.getD j 0 := by
  intro n
  induction n with
  | zero => exact fun j h => absurd h (Nat.not_lt_zero j)
  | succ n ih =>
    intro j hj k
    unfold reactionRate
    rw [List.range_succ, List.foldl_append]
    by_cases hjn : j = n
    · subst hjn
      rw [rate_foldl_noop _ densities k _ (fun i hi => by
        rw [getD_set_ne _ _ _ _ (Nat.ne_of_lt (List.mem_range.mp hi)), getD_replicate_zero]
        norm_num)]
      rw [List.foldl_cons, List.foldl_nil,
        getD_set_self _ _ _ (by rw [List.length_replicate]; exact hj),
        if_pos (by norm_num : (0 : ℚ) < 1), ratPow_one]
    · have hjlt : j < n := Nat.lt_of_le_of_ne (Nat.lt_succ_iff.mp hj) hjn
      rw [rate_foldl_congr ((List.replicate (n + 1) 0).set j 1) ((List.replicate n 0).set j 1)
        densities (List.range n) (fun i _ => by
          by_cases hij : i = j
          · subst hij
            rw [getD_set_self _ _ _ (by rw [List.length_replicate]; exact Nat.lt_succ_of_lt hjlt),
              getD_set_self _ _ _ (by rw [List.length_replicate]; exact hjlt)]
          · rw [getD_set_ne _ _ _ _ hij, getD_set_ne _ _ _ _ hij,
              getD_replicate_zero, getD_replicate_zero]) k]
      have hmain := ih j hjlt k
      unfold reactionRate at hmain
      rw [hmain, List.foldl_cons, List.foldl_nil,
        getD_set_ne _ _ _ _ (Ne.symm hjn), getD_replicate_zero,
        if_neg (by norm_num)]

/-- The wall-tagged two-reactant reaction used as the C3 counterexample. -/
def rxnC3 : Reaction where
  formula := "A + B -> A"
  rtype := "W"
  use_eedf := false
  process := none
  rateFn := fun _ => 1
  energyFn := fun _ => 0

/-- The parameter context at which the C3 counterexample rate is computed. -/
def paramsC3 : OdeParams where
  Te_eV := 1
  densities := [1, 2, 3]
  Y := [0, 1, 2, 3]
  t := 0
  na := 6
  data := []

/-- C3: the claim is false on the code — the rate of a reaction tagged `W`
is formed by the same reactant-density product as every other reaction,
not first-order in the lost species.  With species `e, A, B`, the
wall-tagged reaction `A + B -> A` (lost species `B`), rate coefficient `1`
and densities `1, 2, 3`, the ODE rate loop computes `1·n_A·n_B = 6`, not
`1·n_B = 3`. -/
theorem c3_counterexample_wall_tag :
    ∃ net left, createStoichMatrices ["e", "A", "B"] ["A + B -> A"] = .ok (net, left) ∧
      rxnC3.rtype = "W" ∧
      computeRates [rxnC3] left 3 [] paramsC3 [1, 2, 3] 0 = [6] ∧
      ¬ ((6 : ℚ) = 1 * 3) := by
  refine ⟨[[0, 0, -1]], [[0, 1, 1]], ?_, rfl, ?_, by norm_num⟩
  · norm_num +decide [createStoichMatrices, stoichRows, parseFormula, parseTermStep,
      matchTerm, sortByLenDesc, insertByLenDesc, pySplitPlusDelim, pySplitArrow, pyStrip,
      isPySpace, consHead, pyFloat, pyFloatExp, takeSign, takeDigits, digitVal?,
      dropRightChars, addAt, listIndexOf, List.isSuffixOf, List.isPrefixOf, rowSub,
      List.replicate, List.set, List.zipWith]
  · have hr : List.range 3 = [0, 1, 2] := by decide
    norm_num [computeRates, reactionRate, resolveRateCoefficient, rxnC3, hr, ratPow_one,
      List.getD_cons_zero, List.getD_cons_succ]

/-- C3 (amended): the reaction type tag does not enter rate formation at
all — replacing every tag by anything leaves every computed rate
unchanged — and a reaction is first-order in one species exactly because
its reactant row is a single unit coefficient, as the formulas of
wall-loss reactions are written. -/
theorem c3_amended_type_tag_inert (reactions : List Reaction) (g : String → String)
    (left : List (List ℚ)) (n : Nat) (cache : EedfCache) (params : OdeParams)
    (densities : List ℚ) (t : ℚ) :
    computeRates (reactions.map (fun r => { r with rtype := g r.rtype }))
        left n cache params densities t =
      computeRates reactions left n cache params densities t ∧
    ∀ (k : ℚ) (j : Nat), j < n →
      reactionRate n k ((List.replicate n 0).set j 1) densities =
        k * densities.getD j 0 := by
  constructor
  · unfold computeRates
    rw [List.zipWith_map_left]
    rfl
  · exact fun k j hj => reactionRate_single densities n j hj k

theorem c3_amended_witness :
    computeRates ([rxnC3].map (fun r => { r with rtype := "V" }))
        [[0, 1, 1]] 3 [] paramsC3 [1, 2, 3] 0 =
      computeRates [rxnC3] [[0, 1, 1]] 3 [] paramsC3 [1, 2, 3] 0 ∧
    reactionRate 3 7 ((List.replicate 3 0).set 1 1) [1, 2, 3] =
      7 * ([1, 2, 3] : List ℚ).getD 1 0 :=
  ⟨(c3_amended_type_tag_inert [rxnC3] (fun _ => "V") [[0, 1, 1]] 3 [] paramsC3 [1, 2, 3] 0).1,
   (c3_amended_type_tag_inert [rxnC3] (fun _ => "V") [[0, 1, 1]] 3 [] paramsC3 [1, 2, 3] 0).2
     7 1 (by decide)⟩

/-- `addAt` preserves the vector length. -/
theorem addAt_length (v : List ℚ) (idx : Nat) (c : ℚ) : (addAt v idx c).length = v.length := by
  simp [addAt]

/-- Each term iteration preserves the coefficient-vector length. -/
theorem parseTermStep_length (species ss : List String) (acc : List ℚ × List (List Char))
    (term : List Char) :
    (parseTermStep species ss acc term).1.length = acc.1.length := by
  unfold parseTermStep
  split
  · rfl
  · split
    · simp [addAt]
    · rfl

/-- The whole term fold preserves the coefficient-vector length. -/
theorem parseFold_length (species ss : List String) :
    ∀ (terms : List (List Char)) (acc : List ℚ × List (List Char)),
      ((terms.foldl (parseTermStep species ss) acc).1).length = acc.1.length := by
  intro terms
  induction terms with
  | nil => intro acc; rfl
  | cons t ts ih =>
    intro acc
    rw [List.foldl_cons, ih]
    exact parseTermStep_length species ss acc t

/-- A parsed formula side always yields one coefficient per species. -/
theorem parseFormula_length (species : List String) (part : List Char) :
    (parseFormula species part).1.length = species.length := by
  unfold parseFormula
  rw [parseFold_length]
  exact List.length_replicate _ _

/-- A list of length two is literally a two-element list. -/
theorem list_length_two {α : Type} {l : List α} (h : l.length = 2) : ∃ a b, l = [a, b] := by
  cases l with
  | nil => simp at h
  | cons a t =>
    cases t with
    | nil => simp at h
    | cons b t2 =>
      cases t2 with
      | nil => exact ⟨a, b, rfl⟩
      | cons c t3 => simp at h

/-- When every formula contains exactly one arrow, the per-reaction loop
succeeds and returns the (product-vector, reactant-vector) pair of each
formula. -/
theorem stoichRows_ok (species : List String) :
    ∀ (formulas : List String), (∀ f ∈ formulas, (pySplitArrow f.data).length = 2) →
    stoichRows species formulas = .ok (formulas.map (fun f =>
      ((parseFormula species ((pySplitArrow f.data).getD 1 [])).1,
       (parseFormula species ((pySplitArrow f.data).getD 0 [])).1))) := by
  intro formulas
  induction formulas with
  | nil => intro _; rfl
  | cons f fs ih =>
    intro h
    rcases list_length_two (h f (List.mem_cons_self f fs)) with ⟨a, b, hab⟩
    have hrec := ih (fun g hg => h g (List.mem_cons_of_mem f hg))
    unfold stoichRows
    rw [hab, hrec, List.map_cons, hab]
    rfl

/-- `getD` through `map` at an in-range index. -/
theorem getD_map_lt {α β : Type} (g : α → β) (d0 : α) (d : β) :
    ∀ (l : List α) (i : Nat), i < l.length → (l.map g).getD i d = g (l.getD i d0)
  | [], _, h => absurd h (by simp)
  | _ :: _, 0, _ => rfl
  | _ :: xs, i + 1, h => getD_map_lt g d0 d xs i (Nat.lt_of_succ_lt_succ h)

/-- Entrywise value of a row subtraction. -/
theorem getD_rowSub : ∀ (a b : List ℚ) (s : Nat), s < a.length → s < b.length →
    (rowSub a b).getD s 0 = a.getD s 0 - b.getD s 0
  | [], _, _, ha, _ => absurd ha (by simp)
  | _ :: _, [], _, _, hb => absurd hb (by simp)
  | _ :: _, _ :: _, 0, _, _ => rfl
  | _ :: xs, _ :: ys, s + 1, ha, hb =>
    getD_rowSub xs ys s (Nat.lt_of_succ_lt_succ ha) (Nat.lt_of_succ_lt_succ hb)

/-- C1: when every formula splits into exactly one reactant and one product
side, the stoichiometry builder succeeds with two matrices of
`num_reactions` rows and `num_species` columns, the left matrix rows are
the parsed reactant-side vectors, and every net entry is the parsed
product-side coefficient minus the parsed reactant-side coefficient. -/
theorem c1_stoich_shapes_and_net (species : List String) (formulas : List String)
    (h : ∀ f ∈ formulas, (pySplitArrow f.data).length = 2) :
    ∃ net left, createStoichMatrices species formulas = .ok (net, left) ∧
      net.length = formulas.length ∧ left.length = formulas.length ∧
      (∀ row ∈ net, row.length = species.length) ∧
      (∀ row ∈ left, row.length = species.length) ∧
      (∀ i, i < formulas.length → left.getD i [] =
        (parseFormula species ((pySplitArrow (formulas.getD i "").data).getD 0 [])).1) ∧
      (∀ i s, i < formulas.length → s < species.length →
        (net.getD i []).getD s 0 =
          (parseFormula species
            ((pySplitArrow (formulas.getD i "").data).getD 1 [])).1.getD s 0 -
          (parseFormula species
            ((pySplitArrow (formulas.getD i "").data).getD 0 [])).1.getD s 0) := by
  have hmap := stoichRows_ok species formulas h
  refine ⟨formulas.map (fun f =>
      rowSub (parseFormula species ((pySplitArrow f.data).getD 1 [])).1
             (parseFormula species ((pySplitArrow f.data).getD 0 [])).1),
    formulas.map (fun f => (parseFormula species ((pySplitArrow f.data).getD 0 [])).1),
    ?_, by simp, by simp, ?_, ?_, ?_, ?_⟩
  · unfold createStoichMatrices
    rw [hmap]
    simp only [List.map_map]
    rfl
  · intro row hrow
    rcases List.mem_map.mp hrow with ⟨f, _, hf⟩
    rw [← hf]
    unfold rowSub
    rw [List.length_zipWith, parseFormula_length, parseFormula_length]
    exact Nat.min_self _
  · intro row hrow
    rcases List.mem_map.mp hrow with ⟨f, _, hf⟩
    rw [← hf]
    exact parseFormula_length species _
  · intro i hi
    exact getD_map_lt _ "" [] formulas i hi
  · intro i s hi hs
    rw [getD_map_lt _ "" [] formulas i hi]
    exact getD_rowSub _ _ s (by rw [parseFormula_length]; exact hs)
      (by rw [parseFormula_length]; exact hs)

theorem c1_witness :
    ∃ net left, createStoichMatrices ["e", "Ar", "Ar+"] ["Ar + e -> Ar+ + 2e"] =
        .ok (net, left) ∧
      net.length = 1 ∧ left.length = 1 ∧
      (∀ row ∈ net, row.length = 3) ∧
      (∀ row ∈ left, row.length = 3) ∧
      (∀ i, i < 1 → left.getD i [] =
        (parseFormula ["e", "Ar", "Ar+"]
          ((pySplitArrow (["Ar + e -> Ar+ + 2e"].getD i "").data).getD 0 [])).1) ∧
      (∀ i s, i < 1 → s < 3 →
        (net.getD i []).getD s 0 =
          (parseFormula ["e", "Ar", "Ar+"]
            ((pySplitArrow (["Ar + e -> Ar+ + 2e"].getD i "").data).getD 1 [])).1.getD s 0 -
          (parseFormula ["e", "Ar", "Ar+"]
            ((pySplitArrow (["Ar + e -> Ar+ + 2e"].getD i "").data).getD 0 [])).1.getD s 0) :=
  c1_stoich_shapes_and_net ["e", "Ar", "Ar+"] ["Ar + e -> Ar+ + 2e"] (by decide)

/-- One step of an indexed map. -/
theorem mapFrom_cons {α β : Type} (f : Nat → α → β) (n : Nat) (a : α) (as : List α) :
    mapFrom f n (a :: as) = f n a :: mapFrom f (n + 1) as := rfl

/-- Composing two indexed maps at the same starting index. -/
theorem mapFrom_mapFrom {α β γ : Type} (f : Nat → α → β) (g : Nat → β → γ) :
    ∀ (l : List α) (n : Nat), mapFrom g n (mapFrom f n l) = mapFrom (fun i a => g i (f i a)) n l
  | [], _ => rfl
  | a :: as, n => by
    simp only [mapFrom_cons]
    rw [mapFrom_mapFrom f g as (n + 1)]

/-- Pointwise-equal functions give equal indexed maps. -/
theorem mapFrom_congr {α β : Type} (f g : Nat → α → β) (h : ∀ i a, f i a = g i a) :
    ∀ (l : List α) (n : Nat), mapFrom f n l = mapFrom g n l
  | [], _ => rfl
  | a :: as, n => by
    simp only [mapFrom_cons]
    rw [h n a, mapFrom_congr f g h as (n + 1)]

/-- Functions agreeing on the list's elements give equal indexed maps. -/
theorem mapFrom_congr_mem {α β : Type} (f g : Nat → α → β) :
    ∀ (l : List α), (∀ i a, a ∈ l → f i a = g i a) → ∀ (n : Nat), mapFrom f n l = mapFrom g n l
  | [], _, _ => rfl
  | a :: as, h, n => by
    simp only [mapFrom_cons]
    rw [h n a (List.mem_cons_self a as),
      mapFrom_congr_mem f g as (fun i x hx => h i x (List.mem_cons_of_mem a hx)) (n + 1)]

/-- An indexed map has the length of its input. -/
theorem mapFrom_length {α β : Type} (f : Nat → α → β) :
    ∀ (l : List α) (n : Nat), (mapFrom f n l).length = l.length
  | [], _ => rfl
  | _ :: as, n => by
    simp only [mapFrom_cons]
    rw [List.length_cons, List.length_cons, mapFrom_length f as (n + 1)]

/-- Writing one dict key leaves every other key's lookup unchanged. -/
theorem dictGet?_dictSet_ne : ∀ (d : List (String × ℚ)) (k k' : String) (v : ℚ), k ≠ k' →
    dictGet? (dictSet d k v) k' = dictGet? d k'
  | [], k, k', v, h => by
    simp [dictSet, dictGet?, h]
  | (k0, v0) :: rest, k, k', v, h => by
    unfold dictSet
    by_cases h0 : k0 = k
    · rw [if_pos h0]
      unfold dictGet?
      rw [if_neg (h0 ▸ h), if_neg (h0 ▸ h)]
    · rw [if_neg h0]
      unfold dictGet?
      by_cases h1 : k0 = k'
      · rw [if_pos h1, if_pos h1]
      · rw [if_neg h1, if_neg h1]
        exact dictGet?_dictSet_ne rest k k' v h

/-- A found index is in range. -/
theorem listIndexOf?_some_lt (a : String) : ∀ (l : List String) (i : Nat),
    listIndexOf? a l = some i → i < l.length
  | [], _, h => Option.noConfusion h
  | x :: xs, i, h => by
    unfold listIndexOf? at h
    by_cases hx : x = a
    · rw [if_pos hx] at h
      rw [← Option.some.inj h]
      exact Nat.succ_pos _
    · rw [if_neg hx] at h
      cases hr : listIndexOf? a xs with
      | none => rw [hr] at h; exact Option.noConfusion h
      | some j =>
        rw [hr] at h
        rw [← Option.some.inj h]
        exact Nat.succ_lt_succ (listIndexOf?_some_lt a xs j hr)

/-- The initial electron temperature (`iv.get('Te_eV', 2.0)`), as the claim
reads it. -/
def ivTe (iv : List (String × ℚ)) : ℚ := (dictGet? iv "Te_eV").getD 2

/-- The configured total pressure (`iv.get('p', iv.get('pressure', 10.0))`). -/
def ivPressure (iv : List (String × ℚ)) : ℚ :=
  match dictGet? iv "p" with
  | some v => v
  | none => (dictGet? iv "pressure").getD 10

/-- The sum of the seed species' partial pressures as the claim states it:
every species after the first contributes its supplied initial density (or
zero) times `kb` times its temperature — the initial electron temperature
(in Kelvin) for the electron seed, the gas temperature for every other
seed. -/
def seedPressureSum (species : List String) (iv : List (String × ℚ)) (Th : ℚ) (eIdx : Nat) : ℚ :=
  (mapFrom (fun i s => if i = 0 then 0
    else (dictGet? iv s).getD 0 * const_kb *
      (if i = eIdx then ivTe iv * const_qe / const_kb else Th)) 0 species).sum

/-- C9: the first-listed species is the background gas: its supplied
initial density is ignored (writing any value under its name leaves the
result unchanged), its density is the pressure remainder over `kb·Tg`, and
a negative remainder raises the `ValueError`. -/
theorem c9_first_species_background (s0 : String) (rest : List String)
    (iv : List (String × ℚ)) (Th : ℚ) (eIdx : Nat)
    (he : listIndexOf? "e" (s0 :: rest) = some eIdx) :
    (s0 ∉ rest → s0 ≠ "Te_eV" → s0 ≠ "p" → s0 ≠ "pressure" →
      ∀ v, getInitialConditions (s0 :: rest) (dictSet iv s0 v) Th =
        getInitialConditions (s0 :: rest) iv Th) ∧
    (0 ≤ ivPressure iv - seedPressureSum (s0 :: rest) iv Th eIdx →
      ∃ y0, getInitialConditions (s0 :: rest) iv Th = .ok y0 ∧
        y0.getD 0 0 =
          (ivPressure iv - seedPressureSum (s0 :: rest) iv Th eIdx) / (const_kb * Th) ∧
        y0.length = (s0 :: rest).length + 1) ∧
    (ivPressure iv - seedPressureSum (s0 :: rest) iv Th eIdx < 0 →
      getInitialConditions (s0 :: rest) iv Th =
        .error "ValueError: Sum of partial pressures of seed species is > total pressure.") := by
  have hseed : ∀ (iv' : List (String × ℚ)),
      (mapFrom (fun i v => if i = 0 then 0
        else v * const_kb *
          (if i = eIdx then (dictGet? iv' "Te_eV").getD 2 * const_qe / const_kb else Th)) 0
        (mapFrom (fun i s => if i = 0 then 0 else (dictGet? iv' s).getD 0) 0 (s0 :: rest))).sum =
      seedPressureSum (s0 :: rest) iv' Th eIdx := by
    intro iv'
    unfold seedPressureSum ivTe
    rw [mapFrom_mapFrom]
    congr 1
    refine mapFrom_congr _ _ (fun i a => ?_) _ _
    by_cases hi : i = 0
    · simp [hi]
    · simp [hi]
  have hPP : (match dictGet? iv "p" with
      | some v => v
      | none => (dictGet? iv "pressure").getD 10) = ivPressure iv := rfl
  refine ⟨?_, ?_, ?_⟩
  · intro hnd h1 h2 h3 v
    have hy0 : mapFrom (fun i s => if i = 0 then 0
          else (dictGet? (dictSet iv s0 v) s).getD 0) 0 (s0 :: rest) =
        mapFrom (fun i s => if i = 0 then 0 else (dictGet? iv s).getD 0) 0 (s0 :: rest) := by
      simp only [mapFrom_cons]
      refine congrArg₂ List.cons (by simp)
        (mapFrom_congr_mem _ _ rest (fun i a ha => ?_) 1)
      by_cases hi : i = 0
      · simp [hi]
      · have hne : s0 ≠ a := fun e => hnd (e ▸ ha)
        simp [hi, dictGet?_dictSet_ne iv s0 a v hne]
    simp only [getInitialConditions]
    rw [dictGet?_dictSet_ne iv s0 "Te_eV" v h1,
      dictGet?_dictSet_ne iv s0 "p" v h2,
      dictGet?_dictSet_ne iv s0 "pressure" v h3, hy0]
  · intro hpos
    simp only [getInitialConditions, he]
    rw [hseed iv, hPP, if_neg (not_lt.mpr hpos)]
    have helen : eIdx < ((mapFrom (fun i s => if i = 0 then 0
        else (dictGet? iv s).getD 0) 0 (s0 :: rest)).set 0
          ((ivPressure iv - seedPressureSum (s0 :: rest) iv Th eIdx) / (const_kb * Th))).length := by
      rw [List.length_set, mapFrom_length]
      exact listIndexOf?_some_lt "e" (s0 :: rest) eIdx he
    have hval := List.get?_eq_get helen
    rw [hval]
    refine ⟨_, rfl, rfl, ?_⟩
    rw [List.length_append]
    simp only [List.length_cons, List.length_nil]
    rw [List.length_set, mapFrom_length]
    simp
  · intro hneg
    simp only [getInitialConditions, he]
    rw [hseed iv, hPP, if_pos hneg]

theorem c9_witness :
    getInitialConditions ["Ar", "e"] (dictSet [("e", 1), ("Te_eV", 1), ("p", 10)] "Ar" 5) 300 =
      getInitialConditions ["Ar", "e"] [("e", 1), ("Te_eV", 1), ("p", 10)] 300 ∧
    ∃ y0, getInitialConditions ["Ar", "e"] [("e", 1), ("Te_eV", 1), ("p", 10)] 300 = .ok y0 ∧
      y0.getD 0 0 = (ivPressure [("e", 1), ("Te_eV", 1), ("p", 10)] -
        seedPressureSum ["Ar", "e"] [("e", 1), ("Te_eV", 1), ("p", 10)] 300 1) /
          (const_kb * 300) ∧
      y0.length = (["Ar", "e"] : List String).length + 1 := by
  have h := c9_first_species_background "Ar" ["e"] [("e", 1), ("Te_eV", 1), ("p", 10)] 300 1
    (by decide)
  exact ⟨h.1 (by decide) (by decide) (by decide) (by decide) 5,
    h.2.1 (by norm_num +decide [ivPressure, seedPressureSum, ivTe, dictGet?, mapFrom,
      const_qe, const_kb])⟩

end ZdPlasma
